import Mathlib

/-!
Verification of the transmit buffer pool of `lib/phy/upper/tx_buffer_pool_impl.cpp`.

The pool methods (`reserve_buffer` in both overloads and `run_slot`) are translated
directly from the C++ source.  The declarations that the source pulls in from
`tx_buffer_pool_impl.h` — the buffer element `tx_buffer_impl` with its
`match_id` / `reserve` / `run_slot` operations, the FIFO index queues
(`top` / `pop` / `push` / `size` / `empty`), the pool configuration and the
slot type — are not part of the excerpt and are modelled from the
specification (sections 3, 4.1, 6 and 9).  Slots are modelled as natural
numbers, queues as lists whose head is the front (`top`), handles as
`Option Nat` carrying the index of the referenced buffer (`none` is the
invalid, default-constructed handle).
-/

/-- Identifier of a transmit buffer: the pair of the transmission endpoint
identifier (RNTI) and the HARQ process identifier.  Zero-initialised braces
(`= \x7b\x7d` in the source) give the null identifier used for transient
reservations. -/
structure tx_buffer_identifier where
  rnti : Nat := 0
  harq_ack_id : Nat := 0
deriving DecidableEq, Repr

/-- Reservation status returned by the per-buffer reserve operation
(spec section 4.2 error taxonomy). -/
inductive tx_buffer_status where
  | successful
  | already_reserved
  | insufficient_capacity
deriving DecidableEq, Repr

/-- Modelled from the spec: `tx_buffer_impl` is declared in
`tx_buffer_pool_impl.h`, which is not part of the excerpt.  Per spec section 3
a Buffer owns a backing region sized for a configurable maximum number of
codeblocks, its current identifier, an expiry slot and a state tag
\x7bfree, reserved\x7d. -/
structure tx_buffer_impl where
  max_nof_codeblocks : Nat := 0
  id : tx_buffer_identifier := {}
  expire_slot : Nat := 0
  reserved : Bool := false
deriving DecidableEq, Repr

instance : Inhabited tx_buffer_impl := ⟨{}⟩

/-- Modelled from the spec (section 4.1): `match_id` is true iff the buffer is
currently reserved under exactly that identifier. -/
def tx_buffer_impl.match_id (b : tx_buffer_impl) (i : tx_buffer_identifier) : Bool :=
  b.reserved && b.id == i

/-- Modelled from the spec (section 4.1): the per-buffer reserve attempts to
(re)bind the buffer to `id` with the given expiry slot and codeblock count.
It fails with insufficient capacity when the requested codeblock count exceeds
the buffer maximum, leaving the buffer untouched; otherwise it overwrites the
stored identifier and expiry slot and transitions to reserved. -/
def tx_buffer_impl.reserve (b : tx_buffer_impl) (i : tx_buffer_identifier)
    (expire : Nat) (nof_codeblocks : Nat) : tx_buffer_status × tx_buffer_impl :=
  if b.max_nof_codeblocks < nof_codeblocks then
    (tx_buffer_status.insufficient_capacity, b)
  else
    (tx_buffer_status.successful,
      { b with id := i, expire_slot := expire, reserved := true })

/-- Modelled from the spec (section 4.1): the per-buffer slot tick returns true
(buffer becomes available) iff the current slot has reached the stored expiry
slot, in which case the buffer transitions to free and its identifier is
cleared; otherwise it returns false with no state change. -/
def tx_buffer_impl.run_slot (b : tx_buffer_impl) (slot : Nat) : Bool × tx_buffer_impl :=
  if b.expire_slot ≤ slot then
    (true, { b with reserved := false, id := {} })
  else
    (false, b)

/-- Modelled from the spec (section 6): the immutable pool configuration
supplies the pool capacity, the per-buffer maximum codeblock capacity and the
expiry horizon. -/
structure tx_buffer_pool_config where
  nof_buffers : Nat
  max_nof_codeblocks : Nat
  expire_timeout_slots : Nat
deriving DecidableEq, Repr

/-- State of `tx_buffer_pool_impl`: the fixed array of buffers, the two index
queues and the configured expiry horizon.  The queues are modelled from the
spec (sections 4.2 and 9) as FIFO queues of indices: `top` reads the head,
`pop` drops it, `push` appends at the back. -/
structure tx_buffer_pool_impl where
  buffer_pool : List tx_buffer_impl
  reserved_buffers : List Nat
  available_buffers : List Nat
  expire_timeout_slots : Nat
deriving DecidableEq, Repr

/-- Buffer lookup `*buffer_pool[i]`; out-of-range access is total via the
default (free) buffer. -/
def tx_buffer_pool_impl.getBuf (p : tx_buffer_pool_impl) (i : Nat) : tx_buffer_impl :=
  p.buffer_pool.getD i default

/-- Overwrite the buffer stored at index `i`. -/
def tx_buffer_pool_impl.setBuf (p : tx_buffer_pool_impl) (i : Nat) (b : tx_buffer_impl) :
    tx_buffer_pool_impl :=
  { p with buffer_pool := p.buffer_pool.set i b }

/-- Identifier-carrying overload of `tx_buffer_pool_impl::reserve_buffer`
(source lines 36-88): scan the reserved queue for a buffer matching `id` and
re-reserve it with expiry `slot + expire_timeout_slots`; otherwise take the
front of the available queue, reserve it and move its index from available to
reserved; on any failure return the invalid handle with the pool unchanged. -/
def tx_buffer_pool_impl.reserve_buffer_id (p : tx_buffer_pool_impl) (slot : Nat)
    (id : tx_buffer_identifier) (nof_codeblocks : Nat) :
    Option Nat × tx_buffer_pool_impl :=
  let expire_slot := slot + p.expire_timeout_slots
  match p.reserved_buffers.find? (fun i => (p.getBuf i).match_id id) with
  | some i =>
    let r := (p.getBuf i).reserve id expire_slot nof_codeblocks
    if r.1 = tx_buffer_status.successful then
      (some i, p.setBuf i r.2)
    else
      (none, p)
  | none =>
    match p.available_buffers with
    | [] => (none, p)
    | i :: rest =>
      let r := (p.getBuf i).reserve id expire_slot nof_codeblocks
      if r.1 = tx_buffer_status.successful then
        (some i,
          { p.setBuf i r.2 with
            reserved_buffers := p.reserved_buffers ++ [i],
            available_buffers := rest })
      else
        (none, p)

/-- Identifier-less overload of `tx_buffer_pool_impl::reserve_buffer`
(source lines 90-124): reserve under the null identifier with a one-slot
expiry `slot + 1`, taking the front of the available queue; it performs no
scan of the reserved queue. -/
def tx_buffer_pool_impl.reserve_buffer_transient (p : tx_buffer_pool_impl) (slot : Nat)
    (nof_codeblocks : Nat) : Option Nat × tx_buffer_pool_impl :=
  let expire_slot := slot + 1
  let id : tx_buffer_identifier := {}
  match p.available_buffers with
  | [] => (none, p)
  | i :: rest =>
    let r := (p.getBuf i).reserve id expire_slot nof_codeblocks
    if r.1 = tx_buffer_status.successful then
      (some i,
        { p.setBuf i r.2 with
          reserved_buffers := p.reserved_buffers ++ [i],
          available_buffers := rest })
    else
      (none, p)

/-- One iteration step of the sweep in `tx_buffer_pool_impl::run_slot`: pop the
front reserved index, tick its buffer and push the index to the available or
the reserved queue according to the result. -/
def tx_buffer_pool_impl.run_slot_step (p : tx_buffer_pool_impl) (slot : Nat) :
    tx_buffer_pool_impl :=
  match p.reserved_buffers with
  | [] => p
  | i :: rest =>
    let r := (p.getBuf i).run_slot slot
    let pb := p.setBuf i r.2
    if r.1 then
      { pb with
        reserved_buffers := rest,
        available_buffers := pb.available_buffers ++ [i] }
    else
      { pb with reserved_buffers := rest ++ [i] }

/-- Iterated sweep body of `tx_buffer_pool_impl::run_slot` running a fixed
number of iterations (the snapshot `count` taken before the loop). -/
def tx_buffer_pool_impl.run_slot_iter (slot : Nat) :
    Nat → tx_buffer_pool_impl → tx_buffer_pool_impl
  | 0, p => p
  | n + 1, p => run_slot_iter slot n (p.run_slot_step slot)

/-- The pool maintenance entry point `tx_buffer_pool_impl::run_slot`
(source lines 126-150): snapshot the reserved-queue size, then per iteration
pop the front reserved index, tick its buffer, and push the index to the
available queue when the buffer expired, back to the reserved queue otherwise. -/
def tx_buffer_pool_impl.run_slot (p : tx_buffer_pool_impl) (slot : Nat) :
    tx_buffer_pool_impl :=
  tx_buffer_pool_impl.run_slot_iter slot p.reserved_buffers.length p

/-- Instrumented variant of the sweep that also records, in order, the index
processed by each iteration. -/
def tx_buffer_pool_impl.run_slot_iter_trace (slot : Nat) :
    Nat → tx_buffer_pool_impl → List Nat → tx_buffer_pool_impl × List Nat
  | 0, p, acc => (p, acc)
  | n + 1, p, acc =>
    match p.reserved_buffers with
    | [] => run_slot_iter_trace slot n (p.run_slot_step slot) acc
    | i :: _ => run_slot_iter_trace slot n (p.run_slot_step slot) (acc ++ [i])

/-- Instrumented `run_slot` returning the resulting pool together with the
list of indices processed during the sweep, in processing order. -/
def tx_buffer_pool_impl.run_slot_trace (p : tx_buffer_pool_impl) (slot : Nat) :
    tx_buffer_pool_impl × List Nat :=
  tx_buffer_pool_impl.run_slot_iter_trace slot p.reserved_buffers.length p []

/-- Modelled from the spec (section 6): `create_tx_buffer_pool` builds the pool
with all buffer indices on the available queue and every buffer free. -/
def create_tx_buffer_pool (c : tx_buffer_pool_config) : tx_buffer_pool_impl :=
  { buffer_pool := List.replicate c.nof_buffers { max_nof_codeblocks := c.max_nof_codeblocks },
    reserved_buffers := [],
    available_buffers := List.range c.nof_buffers,
    expire_timeout_slots := c.expire_timeout_slots }

/-- External calls a client can make on the pool. -/
inductive pool_op where
  | reserveId (slot : Nat) (id : tx_buffer_identifier) (nof_codeblocks : Nat)
  | reserveTransient (slot : Nat) (nof_codeblocks : Nat)
  | runSlot (slot : Nat)
deriving DecidableEq, Repr

/-- Apply one external call to the pool state, discarding the returned handle. -/
def apply_op (p : tx_buffer_pool_impl) : pool_op → tx_buffer_pool_impl
  | pool_op.reserveId slot id cb => (p.reserve_buffer_id slot id cb).2
  | pool_op.reserveTransient slot cb => (p.reserve_buffer_transient slot cb).2
  | pool_op.runSlot slot => p.run_slot slot

/-- Apply a sequence of external calls, first one first. -/
def apply_ops (p : tx_buffer_pool_impl) (ops : List pool_op) : tx_buffer_pool_impl :=
  ops.foldl apply_op p

/-- Pool bookkeeping invariant: the concatenation of the available and the
reserved index queues is a permutation of all buffer indices. -/
def pool_inv (p : tx_buffer_pool_impl) : Prop :=
  (p.available_buffers ++ p.reserved_buffers).Perm (List.range p.buffer_pool.length)

instance (p : tx_buffer_pool_impl) : Decidable (pool_inv p) := by
  unfold pool_inv; infer_instance

/-! Basic lemmas about buffer access and update. -/

theorem setBuf_reserved (p : tx_buffer_pool_impl) (i : Nat) (b : tx_buffer_impl) :
    (p.setBuf i b).reserved_buffers = p.reserved_buffers := rfl

theorem setBuf_available (p : tx_buffer_pool_impl) (i : Nat) (b : tx_buffer_impl) :
    (p.setBuf i b).available_buffers = p.available_buffers := rfl

theorem getBuf_default_of_le (p : tx_buffer_pool_impl) (i : Nat)
    (h : p.buffer_pool.length ≤ i) : p.getBuf i = default := by
  simp [tx_buffer_pool_impl.getBuf, List.getD_eq_getElem?_getD, List.getElem?_len_le h]

theorem default_run_slot (slot : Nat) :
    (default : tx_buffer_impl).run_slot slot = (true, default) := by
  have h : (default : tx_buffer_impl).expire_slot = 0 := rfl
  rw [tx_buffer_impl.run_slot, h, if_pos (Nat.zero_le slot)]
  rfl

theorem getBuf_setBuf_ne (p : tx_buffer_pool_impl) (i j : Nat) (b : tx_buffer_impl)
    (h : i ≠ j) : (p.setBuf i b).getBuf j = p.getBuf j := by
  simp [tx_buffer_pool_impl.getBuf, tx_buffer_pool_impl.setBuf,
    List.getD_eq_getElem?_getD, List.getElem?_set_ne h]

theorem getBuf_setBuf_self (p : tx_buffer_pool_impl) (i : Nat) (b : tx_buffer_impl)
    (h : i < p.buffer_pool.length) : (p.setBuf i b).getBuf i = b := by
  simp [tx_buffer_pool_impl.getBuf, tx_buffer_pool_impl.setBuf,
    List.getD_eq_getElem?_getD, List.getElem?_set_self h]

theorem getBuf_set_run (p : tx_buffer_pool_impl) (slot i j : Nat) :
    ((p.setBuf i ((p.getBuf i).run_slot slot).2).getBuf j)
      = if j = i then ((p.getBuf j).run_slot slot).2 else p.getBuf j := by
  by_cases hji : j = i
  · subst hji
    by_cases hlt : j < p.buffer_pool.length
    · simp [getBuf_setBuf_self p j _ hlt]
    · have hle : p.buffer_pool.length ≤ j := Nat.le_of_not_lt hlt
      have hdef : p.getBuf j = default := getBuf_default_of_le p j hle
      have hset : (p.setBuf j ((p.getBuf j).run_slot slot).2).getBuf j = default := by
        apply getBuf_default_of_le
        simp [tx_buffer_pool_impl.setBuf, hle]
      rw [hset, if_pos rfl, hdef, default_run_slot]
  · simp [hji, getBuf_setBuf_ne p i j _ (fun h => hji h.symm)]

/-! Characterization of the single sweep step. -/

theorem run_slot_step_expired (p : tx_buffer_pool_impl) (slot i : Nat) (rest : List Nat)
    (hR : p.reserved_buffers = i :: rest) (hr : ((p.getBuf i).run_slot slot).1 = true) :
    p.run_slot_step slot =
      { buffer_pool := p.buffer_pool.set i ((p.getBuf i).run_slot slot).2,
        reserved_buffers := rest,
        available_buffers := p.available_buffers ++ [i],
        expire_timeout_slots := p.expire_timeout_slots } := by
  simp [tx_buffer_pool_impl.run_slot_step, hR, hr, tx_buffer_pool_impl.setBuf]

theorem run_slot_step_kept (p : tx_buffer_pool_impl) (slot i : Nat) (rest : List Nat)
    (hR : p.reserved_buffers = i :: rest) (hr : ((p.getBuf i).run_slot slot).1 = false) :
    p.run_slot_step slot =
      { buffer_pool := p.buffer_pool.set i ((p.getBuf i).run_slot slot).2,
        reserved_buffers := rest ++ [i],
        available_buffers := p.available_buffers,
        expire_timeout_slots := p.expire_timeout_slots } := by
  simp [tx_buffer_pool_impl.run_slot_step, hR, hr, tx_buffer_pool_impl.setBuf]

/-! Characterization of the bounded sweep: iterating the step `n` times with
`n` at most the reserved-queue length processes exactly the first `n` reserved
indices, in order. -/

theorem run_slot_iter_spec (slot : Nat) : ∀ (n : Nat) (p : tx_buffer_pool_impl),
    n ≤ p.reserved_buffers.length → (p.reserved_buffers.take n).Nodup →
    (tx_buffer_pool_impl.run_slot_iter slot n p).reserved_buffers
        = p.reserved_buffers.drop n
          ++ (p.reserved_buffers.take n).filter (fun i => !((p.getBuf i).run_slot slot).1)
    ∧ (tx_buffer_pool_impl.run_slot_iter slot n p).available_buffers
        = p.available_buffers
          ++ (p.reserved_buffers.take n).filter (fun i => ((p.getBuf i).run_slot slot).1)
    ∧ (∀ j, (tx_buffer_pool_impl.run_slot_iter slot n p).getBuf j
        = if j ∈ p.reserved_buffers.take n then ((p.getBuf j).run_slot slot).2 else p.getBuf j)
    ∧ (tx_buffer_pool_impl.run_slot_iter slot n p).expire_timeout_slots = p.expire_timeout_slots
    ∧ (tx_buffer_pool_impl.run_slot_iter slot n p).buffer_pool.length = p.buffer_pool.length := by
  intro n
  induction n with
  | zero =>
    intro p hlen hnod
    simp [tx_buffer_pool_impl.run_slot_iter]
  | succ n ih =>
    intro p hlen hnod
    cases hR : p.reserved_buffers with
    | nil => rw [hR] at hlen; simp at hlen
    | cons i rest =>
      rw [hR] at hlen hnod
      simp only [List.take_succ_cons, List.nodup_cons] at hnod
      obtain ⟨hni, hnr⟩ := hnod
      have hlen' : n ≤ rest.length := by simpa using hlen
      have hstep : tx_buffer_pool_impl.run_slot_iter slot (n + 1) p
          = tx_buffer_pool_impl.run_slot_iter slot n (p.run_slot_step slot) := rfl
      cases hr : ((p.getBuf i).run_slot slot).1 with
      | true =>
        set p2 : tx_buffer_pool_impl :=
          { buffer_pool := p.buffer_pool.set i ((p.getBuf i).run_slot slot).2,
            reserved_buffers := rest,
            available_buffers := p.available_buffers ++ [i],
            expire_timeout_slots := p.expire_timeout_slots } with hp2
        have hstep2 : p.run_slot_step slot = p2 := run_slot_step_expired p slot i rest hR hr
        have hget2 : ∀ j, p2.getBuf j
            = if j = i then ((p.getBuf j).run_slot slot).2 else p.getBuf j := by
          intro j
          have := getBuf_set_run p slot i j
          simpa [hp2, tx_buffer_pool_impl.setBuf] using this
        have hres2 : p2.reserved_buffers = rest := rfl
        have ihall := ih p2 (by rw [hres2]; exact hlen') (by rw [hres2]; exact hnr)
        obtain ⟨ih1, ih2, ih3, ih4, ih5⟩ := ihall
        rw [hstep, hstep2]
        have hfilterN : (rest.take n).filter (fun j => !((p2.getBuf j).run_slot slot).1)
            = (rest.take n).filter (fun j => !((p.getBuf j).run_slot slot).1) := by
          apply List.filter_congr
          intro x hx
          have hxi : x ≠ i := by
            intro hxe; exact hni (hxe ▸ hx)
          rw [hget2 x, if_neg hxi]
        have hfilterP : (rest.take n).filter (fun j => ((p2.getBuf j).run_slot slot).1)
            = (rest.take n).filter (fun j => ((p.getBuf j).run_slot slot).1) := by
          apply List.filter_congr
          intro x hx
          have hxi : x ≠ i := by
            intro hxe; exact hni (hxe ▸ hx)
          rw [hget2 x, if_neg hxi]
        refine ⟨?_, ?_, ?_, ?_, ?_⟩
        · rw [ih1]
          simp only [hres2, List.take_succ_cons, List.drop_succ_cons]
          rw [hfilterN]
          simp [hr]
        · rw [ih2]
          simp only [hres2, List.take_succ_cons]
          rw [hfilterP]
          simp [hr]
        · intro j
          rw [ih3 j]
          simp only [hres2, List.take_succ_cons, List.mem_cons]
          by_cases hji : j = i
          · subst hji
            have hjn : j ∉ rest.take n := hni
            rw [if_neg hjn, hget2 j, if_pos rfl, if_pos (Or.inl rfl)]
          · rw [hget2 j, if_neg hji]
            by_cases hjm : j ∈ rest.take n
            · rw [if_pos hjm, if_pos (Or.inr hjm)]
            · rw [if_neg hjm, if_neg (by simp [hji, hjm])]
        · rw [ih4]
        · rw [ih5, hp2]
          simp
      | false =>
        set p2 : tx_buffer_pool_impl :=
          { buffer_pool := p.buffer_pool.set i ((p.getBuf i).run_slot slot).2,
            reserved_buffers := rest ++ [i],
            available_buffers := p.available_buffers,
            expire_timeout_slots := p.expire_timeout_slots } with hp2
        have hstep2 : p.run_slot_step slot = p2 := run_slot_step_kept p slot i rest hR hr
        have hget2 : ∀ j, p2.getBuf j
            = if j = i then ((p.getBuf j).run_slot slot).2 else p.getBuf j := by
          intro j
          have := getBuf_set_run p slot i j
          simpa [hp2, tx_buffer_pool_impl.setBuf] using this
        have hres2 : p2.reserved_buffers = rest ++ [i] := rfl
        have htake2 : p2.reserved_buffers.take n = rest.take n := by
          rw [hres2, List.take_append_of_le_length hlen']
        have hdrop2 : p2.reserved_buffers.drop n = rest.drop n ++ [i] := by
          rw [hres2, List.drop_append_of_le_length hlen']
        have ihall := ih p2 (by rw [hres2]; simp; omega) (by rw [htake2]; exact hnr)
        obtain ⟨ih1, ih2, ih3, ih4, ih5⟩ := ihall
        rw [hstep, hstep2]
        have hfilterN : (rest.take n).filter (fun j => !((p2.getBuf j).run_slot slot).1)
            = (rest.take n).filter (fun j => !((p.getBuf j).run_slot slot).1) := by
          apply List.filter_congr
          intro x hx
          have hxi : x ≠ i := by
            intro hxe; exact hni (hxe ▸ hx)
          rw [hget2 x, if_neg hxi]
        have hfilterP : (rest.take n).filter (fun j => ((p2.getBuf j).run_slot slot).1)
            = (rest.take n).filter (fun j => ((p.getBuf j).run_slot slot).1) := by
          apply List.filter_congr
          intro x hx
          have hxi : x ≠ i := by
            intro hxe; exact hni (hxe ▸ hx)
          rw [hget2 x, if_neg hxi]
        refine ⟨?_, ?_, ?_, ?_, ?_⟩
        · rw [ih1, htake2, hdrop2]
          rw [hfilterN]
          simp [hr]
        · rw [ih2, htake2]
          have hav2 : p2.available_buffers = p.available_buffers := rfl
          rw [hav2, hfilterP]
          simp [hr]
        · intro j
          rw [ih3 j, htake2]
          simp only [List.take_succ_cons, List.mem_cons]
          by_cases hji : j = i
          · subst hji
            have hjn : j ∉ rest.take n := hni
            rw [if_neg hjn, hget2 j, if_pos rfl, if_pos (Or.inl rfl)]
          · rw [hget2 j, if_neg hji]
            by_cases hjm : j ∈ rest.take n
            · rw [if_pos hjm, if_pos (Or.inr hjm)]
            · rw [if_neg hjm, if_neg (by simp [hji, hjm])]
        · rw [ih4]
        · rw [ih5, hp2]
          simp

/-! Characterization of a full `run_slot` sweep on a duplicate-free reserved
queue: survivors stay on the reserved queue (in order), expired indices are
appended to the available queue, and every processed buffer is ticked once. -/

theorem run_slot_reserved_eq (p : tx_buffer_pool_impl) (slot : Nat)
    (h : p.reserved_buffers.Nodup) :
    (p.run_slot slot).reserved_buffers
      = p.reserved_buffers.filter (fun i => !((p.getBuf i).run_slot slot).1) := by
  have hs := run_slot_iter_spec slot p.reserved_buffers.length p le_rfl (by simpa using h)
  simpa [tx_buffer_pool_impl.run_slot] using hs.1

theorem run_slot_available_eq (p : tx_buffer_pool_impl) (slot : Nat)
    (h : p.reserved_buffers.Nodup) :
    (p.run_slot slot).available_buffers
      = p.available_buffers
        ++ p.reserved_buffers.filter (fun i => ((p.getBuf i).run_slot slot).1) := by
  have hs := run_slot_iter_spec slot p.reserved_buffers.length p le_rfl (by simpa using h)
  simpa [tx_buffer_pool_impl.run_slot] using hs.2.1

theorem run_slot_getBuf_eq (p : tx_buffer_pool_impl) (slot : Nat)
    (h : p.reserved_buffers.Nodup) (j : Nat) :
    (p.run_slot slot).getBuf j
      = if j ∈ p.reserved_buffers then ((p.getBuf j).run_slot slot).2 else p.getBuf j := by
  have hs := run_slot_iter_spec slot p.reserved_buffers.length p le_rfl (by simpa using h)
  simpa [tx_buffer_pool_impl.run_slot] using hs.2.2.1 j

theorem run_slot_timeout_eq (p : tx_buffer_pool_impl) (slot : Nat)
    (h : p.reserved_buffers.Nodup) :
    (p.run_slot slot).expire_timeout_slots = p.expire_timeout_slots := by
  have hs := run_slot_iter_spec slot p.reserved_buffers.length p le_rfl (by simpa using h)
  simpa [tx_buffer_pool_impl.run_slot] using hs.2.2.2.1

theorem run_slot_pool_length_eq (p : tx_buffer_pool_impl) (slot : Nat)
    (h : p.reserved_buffers.Nodup) :
    (p.run_slot slot).buffer_pool.length = p.buffer_pool.length := by
  have hs := run_slot_iter_spec slot p.reserved_buffers.length p le_rfl (by simpa using h)
  simpa [tx_buffer_pool_impl.run_slot] using hs.2.2.2.2

/-! Consequences of the pool invariant. -/

theorem pool_inv_nodup_reserved (p : tx_buffer_pool_impl) (h : pool_inv p) :
    p.reserved_buffers.Nodup := by
  have hn : (p.available_buffers ++ p.reserved_buffers).Nodup :=
    (h.symm.nodup (List.nodup_range _))
  exact (List.nodup_append.mp hn).2.1

theorem pool_inv_nodup_available (p : tx_buffer_pool_impl) (h : pool_inv p) :
    p.available_buffers.Nodup := by
  have hn : (p.available_buffers ++ p.reserved_buffers).Nodup :=
    (h.symm.nodup (List.nodup_range _))
  exact (List.nodup_append.mp hn).1

theorem pool_inv_disjoint (p : tx_buffer_pool_impl) (h : pool_inv p) :
    p.available_buffers.Disjoint p.reserved_buffers := by
  have hn : (p.available_buffers ++ p.reserved_buffers).Nodup :=
    (h.symm.nodup (List.nodup_range _))
  exact (List.nodup_append.mp hn).2.2

/-! Preservation of the pool invariant by the three pool operations. -/

theorem perm_move_front (i : Nat) (rest R : List Nat) :
    (rest ++ (R ++ [i])).Perm (i :: (rest ++ R)) := by
  rw [← List.append_assoc]
  exact List.perm_append_comm

/-! Path lemmas for the two reserve overloads: one equation per control-flow
path of the source. -/

theorem reserve_id_match_success (p : tx_buffer_pool_impl) (slot : Nat)
    (id : tx_buffer_identifier) (cb i : Nat)
    (hf : p.reserved_buffers.find? (fun j => (p.getBuf j).match_id id) = some i)
    (hok : ((p.getBuf i).reserve id (slot + p.expire_timeout_slots) cb).1
      = tx_buffer_status.successful) :
    p.reserve_buffer_id slot id cb
      = (some i, p.setBuf i ((p.getBuf i).reserve id (slot + p.expire_timeout_slots) cb).2) := by
  unfold tx_buffer_pool_impl.reserve_buffer_id
  rw [hf]
  simp [hok]

theorem reserve_id_match_fail (p : tx_buffer_pool_impl) (slot : Nat)
    (id : tx_buffer_identifier) (cb i : Nat)
    (hf : p.reserved_buffers.find? (fun j => (p.getBuf j).match_id id) = some i)
    (hok : ((p.getBuf i).reserve id (slot + p.expire_timeout_slots) cb).1
      ≠ tx_buffer_status.successful) :
    p.reserve_buffer_id slot id cb = (none, p) := by
  unfold tx_buffer_pool_impl.reserve_buffer_id
  rw [hf]
  simp [hok]

theorem reserve_id_no_match_empty (p : tx_buffer_pool_impl) (slot : Nat)
    (id : tx_buffer_identifier) (cb : Nat)
    (hf : p.reserved_buffers.find? (fun j => (p.getBuf j).match_id id) = none)
    (hav : p.available_buffers = []) :
    p.reserve_buffer_id slot id cb = (none, p) := by
  unfold tx_buffer_pool_impl.reserve_buffer_id
  rw [hf, hav]

theorem reserve_id_fresh_success (p : tx_buffer_pool_impl) (slot : Nat)
    (id : tx_buffer_identifier) (cb i : Nat) (rest : List Nat)
    (hf : p.reserved_buffers.find? (fun j => (p.getBuf j).match_id id) = none)
    (hav : p.available_buffers = i :: rest)
    (hok : ((p.getBuf i).reserve id (slot + p.expire_timeout_slots) cb).1
      = tx_buffer_status.successful) :
    p.reserve_buffer_id slot id cb
      = (some i,
        { buffer_pool :=
            p.buffer_pool.set i ((p.getBuf i).reserve id (slot + p.expire_timeout_slots) cb).2,
          reserved_buffers := p.reserved_buffers ++ [i],
          available_buffers := rest,
          expire_timeout_slots := p.expire_timeout_slots }) := by
  unfold tx_buffer_pool_impl.reserve_buffer_id
  rw [hf, hav]
  simp [hok, tx_buffer_pool_impl.setBuf]

theorem reserve_id_fresh_fail (p : tx_buffer_pool_impl) (slot : Nat)
    (id : tx_buffer_identifier) (cb i : Nat) (rest : List Nat)
    (hf : p.reserved_buffers.find? (fun j => (p.getBuf j).match_id id) = none)
    (hav : p.available_buffers = i :: rest)
    (hok : ((p.getBuf i).reserve id (slot + p.expire_timeout_slots) cb).1
      ≠ tx_buffer_status.successful) :
    p.reserve_buffer_id slot id cb = (none, p) := by
  unfold tx_buffer_pool_impl.reserve_buffer_id
  rw [hf, hav]
  simp [hok]

theorem reserve_transient_empty (p : tx_buffer_pool_impl) (slot cb : Nat)
    (hav : p.available_buffers = []) :
    p.reserve_buffer_transient slot cb = (none, p) := by
  unfold tx_buffer_pool_impl.reserve_buffer_transient
  rw [hav]

theorem reserve_transient_success (p : tx_buffer_pool_impl) (slot cb i : Nat)
    (rest : List Nat)
    (hav : p.available_buffers = i :: rest)
    (hok : ((p.getBuf i).reserve {} (slot + 1) cb).1 = tx_buffer_status.successful) :
    p.reserve_buffer_transient slot cb
      = (some i,
        { buffer_pool := p.buffer_pool.set i ((p.getBuf i).reserve {} (slot + 1) cb).2,
          reserved_buffers := p.reserved_buffers ++ [i],
          available_buffers := rest,
          expire_timeout_slots := p.expire_timeout_slots }) := by
  unfold tx_buffer_pool_impl.reserve_buffer_transient
  rw [hav]
  simp [hok, tx_buffer_pool_impl.setBuf]

theorem reserve_transient_fail (p : tx_buffer_pool_impl) (slot cb i : Nat)
    (rest : List Nat)
    (hav : p.available_buffers = i :: rest)
    (hok : ((p.getBuf i).reserve {} (slot + 1) cb).1 ≠ tx_buffer_status.successful) :
    p.reserve_buffer_transient slot cb = (none, p) := by
  unfold tx_buffer_pool_impl.reserve_buffer_transient
  rw [hav]
  simp [hok]

theorem pool_inv_reserve_id (p : tx_buffer_pool_impl) (slot : Nat)
    (id : tx_buffer_identifier) (cb : Nat) (h : pool_inv p) :
    pool_inv (p.reserve_buffer_id slot id cb).2 := by
  cases hf : p.reserved_buffers.find? (fun j => (p.getBuf j).match_id id) with
  | some i =>
    by_cases hok : ((p.getBuf i).reserve id (slot + p.expire_timeout_slots) cb).1
        = tx_buffer_status.successful
    · rw [reserve_id_match_success p slot id cb i hf hok]
      unfold pool_inv at h ⊢
      simpa [tx_buffer_pool_impl.setBuf] using h
    · rw [reserve_id_match_fail p slot id cb i hf hok]
      exact h
  | none =>
    cases hav : p.available_buffers with
    | nil =>
      rw [reserve_id_no_match_empty p slot id cb hf hav]
      exact h
    | cons i rest =>
      by_cases hok : ((p.getBuf i).reserve id (slot + p.expire_timeout_slots) cb).1
          = tx_buffer_status.successful
      · rw [reserve_id_fresh_success p slot id cb i rest hf hav hok]
        unfold pool_inv at h ⊢
        simp only [List.length_set]
        rw [hav] at h
        exact (perm_move_front i rest p.reserved_buffers).trans h
      · rw [reserve_id_fresh_fail p slot id cb i rest hf hav hok]
        exact h

theorem pool_inv_reserve_transient (p : tx_buffer_pool_impl) (slot cb : Nat)
    (h : pool_inv p) :
    pool_inv (p.reserve_buffer_transient slot cb).2 := by
  cases hav : p.available_buffers with
  | nil =>
    rw [reserve_transient_empty p slot cb hav]
    exact h
  | cons i rest =>
    by_cases hok : ((p.getBuf i).reserve {} (slot + 1) cb).1 = tx_buffer_status.successful
    · rw [reserve_transient_success p slot cb i rest hav hok]
      unfold pool_inv at h ⊢
      simp only [List.length_set]
      rw [hav] at h
      exact (perm_move_front i rest p.reserved_buffers).trans h
    · rw [reserve_transient_fail p slot cb i rest hav hok]
      exact h

theorem pool_inv_run_slot (p : tx_buffer_pool_impl) (slot : Nat) (h : pool_inv p) :
    pool_inv (p.run_slot slot) := by
  have hnod := pool_inv_nodup_reserved p h
  unfold pool_inv
  rw [run_slot_reserved_eq p slot hnod, run_slot_available_eq p slot hnod,
    run_slot_pool_length_eq p slot hnod, List.append_assoc]
  exact (List.Perm.append_left _
    (List.filter_append_perm (fun i => ((p.getBuf i).run_slot slot).1) p.reserved_buffers)).trans h

theorem pool_inv_apply_op (p : tx_buffer_pool_impl) (op : pool_op) (h : pool_inv p) :
    pool_inv (apply_op p op) := by
  cases op with
  | reserveId slot id cb => exact pool_inv_reserve_id p slot id cb h
  | reserveTransient slot cb => exact pool_inv_reserve_transient p slot cb h
  | runSlot slot => exact pool_inv_run_slot p slot h

theorem pool_inv_apply_ops (p : tx_buffer_pool_impl) (ops : List pool_op) (h : pool_inv p) :
    pool_inv (apply_ops p ops) := by
  induction ops generalizing p with
  | nil => exact h
  | cons op ops ih => exact ih _ (pool_inv_apply_op p op h)

theorem pool_inv_create (c : tx_buffer_pool_config) : pool_inv (create_tx_buffer_pool c) := by
  unfold pool_inv create_tx_buffer_pool
  simp

/-! Preservation of the buffer-array length. -/

theorem reserve_id_pool_length (p : tx_buffer_pool_impl) (slot : Nat)
    (id : tx_buffer_identifier) (cb : Nat) :
    (p.reserve_buffer_id slot id cb).2.buffer_pool.length = p.buffer_pool.length := by
  cases hf : p.reserved_buffers.find? (fun j => (p.getBuf j).match_id id) with
  | some i =>
    by_cases hok : ((p.getBuf i).reserve id (slot + p.expire_timeout_slots) cb).1
        = tx_buffer_status.successful
    · rw [reserve_id_match_success p slot id cb i hf hok]
      simp [tx_buffer_pool_impl.setBuf]
    · rw [reserve_id_match_fail p slot id cb i hf hok]
  | none =>
    cases hav : p.available_buffers with
    | nil => rw [reserve_id_no_match_empty p slot id cb hf hav]
    | cons i rest =>
      by_cases hok : ((p.getBuf i).reserve id (slot + p.expire_timeout_slots) cb).1
          = tx_buffer_status.successful
      · rw [reserve_id_fresh_success p slot id cb i rest hf hav hok]
        simp
      · rw [reserve_id_fresh_fail p slot id cb i rest hf hav hok]

theorem reserve_transient_pool_length (p : tx_buffer_pool_impl) (slot cb : Nat) :
    (p.reserve_buffer_transient slot cb).2.buffer_pool.length = p.buffer_pool.length := by
  cases hav : p.available_buffers with
  | nil => rw [reserve_transient_empty p slot cb hav]
  | cons i rest =>
    by_cases hok : ((p.getBuf i).reserve {} (slot + 1) cb).1 = tx_buffer_status.successful
    · rw [reserve_transient_success p slot cb i rest hav hok]
      simp
    · rw [reserve_transient_fail p slot cb i rest hav hok]

theorem apply_op_pool_length (p : tx_buffer_pool_impl) (op : pool_op) (h : pool_inv p) :
    (apply_op p op).buffer_pool.length = p.buffer_pool.length := by
  cases op with
  | reserveId slot id cb => exact reserve_id_pool_length p slot id cb
  | reserveTransient slot cb => exact reserve_transient_pool_length p slot cb
  | runSlot slot => exact run_slot_pool_length_eq p slot (pool_inv_nodup_reserved p h)

theorem apply_ops_pool_length (p : tx_buffer_pool_impl) (ops : List pool_op) (h : pool_inv p) :
    (apply_ops p ops).buffer_pool.length = p.buffer_pool.length := by
  induction ops generalizing p with
  | nil => rfl
  | cons op ops ih =>
    have h2 : apply_ops p (op :: ops) = apply_ops (apply_op p op) ops := rfl
    rw [h2, ih (apply_op p op) (pool_inv_apply_op p op h), apply_op_pool_length p op h]

theorem create_pool_length (c : tx_buffer_pool_config) :
    (create_tx_buffer_pool c).buffer_pool.length = c.nof_buffers := by
  simp [create_tx_buffer_pool]

/-- C1: for every sequence of pool operations (identifier reserve, transient
reserve, slot advance) applied to a freshly created pool, the free and
reserved index queues partition the index range of the pool capacity after
each call: their sizes sum to the capacity, they are disjoint, and every
index below the capacity appears in one of them (and only such indices
appear). -/
theorem C1_free_reserved_partition (c : tx_buffer_pool_config) (ops : List pool_op) :
    (apply_ops (create_tx_buffer_pool c) ops).available_buffers.length
        + (apply_ops (create_tx_buffer_pool c) ops).reserved_buffers.length = c.nof_buffers
    ∧ (∀ j, ¬(j ∈ (apply_ops (create_tx_buffer_pool c) ops).available_buffers
        ∧ j ∈ (apply_ops (create_tx_buffer_pool c) ops).reserved_buffers))
    ∧ (∀ j, j < c.nof_buffers
        ↔ (j ∈ (apply_ops (create_tx_buffer_pool c) ops).available_buffers
           ∨ j ∈ (apply_ops (create_tx_buffer_pool c) ops).reserved_buffers)) := by
  have hinv := pool_inv_apply_ops (create_tx_buffer_pool c) ops (pool_inv_create c)
  have hlen : (apply_ops (create_tx_buffer_pool c) ops).buffer_pool.length = c.nof_buffers := by
    rw [apply_ops_pool_length (create_tx_buffer_pool c) ops (pool_inv_create c),
      create_pool_length]
  unfold pool_inv at hinv
  rw [hlen] at hinv
  refine ⟨?_, ?_, ?_⟩
  · have := hinv.length_eq
    simpa using this
  · intro j hj
    exact pool_inv_disjoint _ (pool_inv_apply_ops (create_tx_buffer_pool c) ops
      (pool_inv_create c)) hj.1 hj.2
  · intro j
    have hm := hinv.mem_iff (a := j)
    simp only [List.mem_append, List.mem_range] at hm
    exact hm.symm

/-! The instrumented sweep agrees with the sweep and processes exactly the
snapshot of the reserved queue. -/

theorem run_slot_iter_trace_fst (slot : Nat) :
    ∀ (n : Nat) (p : tx_buffer_pool_impl) (acc : List Nat),
    (tx_buffer_pool_impl.run_slot_iter_trace slot n p acc).1
      = tx_buffer_pool_impl.run_slot_iter slot n p := by
  intro n
  induction n with
  | zero => intro p acc; rfl
  | succ n ih =>
    intro p acc
    cases hR : p.reserved_buffers with
    | nil =>
      have h1 : tx_buffer_pool_impl.run_slot_iter_trace slot (n + 1) p acc
          = tx_buffer_pool_impl.run_slot_iter_trace slot n (p.run_slot_step slot) acc := by
        simp only [tx_buffer_pool_impl.run_slot_iter_trace, hR]
      rw [h1, ih]
      rfl
    | cons i rest =>
      have h1 : tx_buffer_pool_impl.run_slot_iter_trace slot (n + 1) p acc
          = tx_buffer_pool_impl.run_slot_iter_trace slot n (p.run_slot_step slot) (acc ++ [i]) := by
        simp only [tx_buffer_pool_impl.run_slot_iter_trace, hR]
      rw [h1, ih]
      rfl

theorem run_slot_iter_trace_snd (slot : Nat) :
    ∀ (n : Nat) (p : tx_buffer_pool_impl) (acc : List Nat),
    n ≤ p.reserved_buffers.length →
    (tx_buffer_pool_impl.run_slot_iter_trace slot n p acc).2
      = acc ++ p.reserved_buffers.take n := by
  intro n
  induction n with
  | zero => intro p acc _; simp [tx_buffer_pool_impl.run_slot_iter_trace]
  | succ n ih =>
    intro p acc hlen
    cases hR : p.reserved_buffers with
    | nil => rw [hR] at hlen; simp at hlen
    | cons i rest =>
      rw [hR] at hlen
      have hlen' : n ≤ rest.length := by simpa using hlen
      have h1 : tx_buffer_pool_impl.run_slot_iter_trace slot (n + 1) p acc
          = tx_buffer_pool_impl.run_slot_iter_trace slot n (p.run_slot_step slot) (acc ++ [i]) := by
        simp only [tx_buffer_pool_impl.run_slot_iter_trace, hR]
      rw [h1]
      cases hr : ((p.getBuf i).run_slot slot).1 with
      | true =>
        have hstep := run_slot_step_expired p slot i rest hR hr
        have hres : (p.run_slot_step slot).reserved_buffers = rest := by rw [hstep]
        rw [ih (p.run_slot_step slot) (acc ++ [i]) (by rw [hres]; exact hlen'), hres]
        simp
      | false =>
        have hstep := run_slot_step_kept p slot i rest hR hr
        have hres : (p.run_slot_step slot).reserved_buffers = rest ++ [i] := by rw [hstep]
        have htake : (p.run_slot_step slot).reserved_buffers.take n = rest.take n := by
          rw [hres, List.take_append_of_le_length hlen']
        rw [ih (p.run_slot_step slot) (acc ++ [i]) (by rw [hres]; simp; omega), htake]
        simp

theorem run_slot_trace_fst (p : tx_buffer_pool_impl) (slot : Nat) :
    (p.run_slot_trace slot).1 = p.run_slot slot :=
  run_slot_iter_trace_fst slot p.reserved_buffers.length p []

theorem run_slot_trace_snd (p : tx_buffer_pool_impl) (slot : Nat) :
    (p.run_slot_trace slot).2 = p.reserved_buffers := by
  have h := run_slot_iter_trace_snd slot p.reserved_buffers.length p [] le_rfl
  simpa [tx_buffer_pool_impl.run_slot_trace] using h

/-- C2: one call of the per-slot maintenance sweep processes each index that
was on the reserved queue at the start of the call exactly once: the trace of
processed indices is exactly the starting reserved queue, so on a
duplicate-free queue every reserved index is processed once (count one) and no
other index is processed at all, even though surviving indices are pushed back
onto the reserved queue during the same call. -/
theorem C2_sweep_processes_each_reserved_once (p : tx_buffer_pool_impl) (slot : Nat)
    (h : p.reserved_buffers.Nodup) :
    (p.run_slot_trace slot).1 = p.run_slot slot
    ∧ (p.run_slot_trace slot).2 = p.reserved_buffers
    ∧ (∀ i ∈ p.reserved_buffers, (p.run_slot_trace slot).2.count i = 1)
    ∧ (∀ i, i ∉ p.reserved_buffers → (p.run_slot_trace slot).2.count i = 0) := by
  refine ⟨run_slot_trace_fst p slot, run_slot_trace_snd p slot, ?_, ?_⟩
  · intro i hi
    rw [run_slot_trace_snd p slot]
    exact List.count_eq_one_of_mem h hi
  · intro i hi
    rw [run_slot_trace_snd p slot]
    exact List.count_eq_zero.mpr hi

/-- Witness for C2 at a concrete pool with two reserved buffers, one of which
expires at the swept slot and is pushed to the available queue while the other
survives and is pushed back to the reserved queue. -/
theorem C2_sweep_processes_each_reserved_once_witness :
    let p : tx_buffer_pool_impl :=
      { buffer_pool :=
          [{ max_nof_codeblocks := 4, id := { rnti := 1, harq_ack_id := 0 },
             expire_slot := 5, reserved := true },
           { max_nof_codeblocks := 4, id := { rnti := 2, harq_ack_id := 1 },
             expire_slot := 9, reserved := true }],
        reserved_buffers := [0, 1],
        available_buffers := [],
        expire_timeout_slots := 4 }
    (p.run_slot_trace 5).1 = p.run_slot 5
    ∧ (p.run_slot_trace 5).2 = p.reserved_buffers
    ∧ (∀ i ∈ p.reserved_buffers, (p.run_slot_trace 5).2.count i = 1)
    ∧ (∀ i, i ∉ p.reserved_buffers → (p.run_slot_trace 5).2.count i = 0) :=
  C2_sweep_processes_each_reserved_once _ 5 (by decide)

/-! List-update helpers on the buffer array. -/

theorem getD_set_ne (l : List tx_buffer_impl) (a i : Nat) (b : tx_buffer_impl)
    (h : a ≠ i) : (l.set a b).getD i default = l.getD i default := by
  simp [List.getD_eq_getElem?_getD, List.getElem?_set_ne h]

theorem getD_set_self (l : List tx_buffer_impl) (a : Nat) (b : tx_buffer_impl)
    (h : a < l.length) : (l.set a b).getD a default = b := by
  simp [List.getD_eq_getElem?_getD, List.getElem?_set_self h]

/-! Behaviour of a sweep on a single reserved index. -/

theorem run_slot_keeps_unexpired (p : tx_buffer_pool_impl) (slot i : Nat)
    (hnod : p.reserved_buffers.Nodup) (hi : i ∈ p.reserved_buffers)
    (hexp : ¬ (p.getBuf i).expire_slot ≤ slot) :
    i ∈ (p.run_slot slot).reserved_buffers ∧ (p.run_slot slot).getBuf i = p.getBuf i := by
  have hb : (p.getBuf i).run_slot slot = (false, p.getBuf i) := by
    unfold tx_buffer_impl.run_slot
    rw [if_neg hexp]
  constructor
  · rw [run_slot_reserved_eq p slot hnod]
    refine List.mem_filter.mpr ⟨hi, ?_⟩
    simp [hb]
  · rw [run_slot_getBuf_eq p slot hnod i, if_pos hi, hb]

theorem run_slot_frees_expired (p : tx_buffer_pool_impl) (slot i : Nat)
    (hnod : p.reserved_buffers.Nodup) (hi : i ∈ p.reserved_buffers)
    (hexp : (p.getBuf i).expire_slot ≤ slot) :
    i ∈ (p.run_slot slot).available_buffers
    ∧ i ∉ (p.run_slot slot).reserved_buffers
    ∧ (p.run_slot slot).getBuf i = { p.getBuf i with reserved := false, id := {} } := by
  have hb : (p.getBuf i).run_slot slot
      = (true, { p.getBuf i with reserved := false, id := {} }) := by
    unfold tx_buffer_impl.run_slot
    rw [if_pos hexp]
  refine ⟨?_, ?_, ?_⟩
  · rw [run_slot_available_eq p slot hnod]
    refine List.mem_append.mpr (Or.inr (List.mem_filter.mpr ⟨hi, ?_⟩))
    simp [hb]
  · rw [run_slot_reserved_eq p slot hnod]
    intro hmem
    have := (List.mem_filter.mp hmem).2
    simp [hb] at this
  · rw [run_slot_getBuf_eq p slot hnod i, if_pos hi, hb]

/-! A reserve call never disturbs a reserved buffer whose identifier differs
from the requested one (in particular, the transient overload disturbs no
reserved buffer at all). -/

theorem reserve_id_untouched (p : tx_buffer_pool_impl) (slot : Nat)
    (id : tx_buffer_identifier) (cb i : Nat) (hinv : pool_inv p)
    (hi : i ∈ p.reserved_buffers) (hid : (p.getBuf i).id ≠ id) :
    i ∈ (p.reserve_buffer_id slot id cb).2.reserved_buffers
    ∧ (p.reserve_buffer_id slot id cb).2.getBuf i = p.getBuf i := by
  cases hf : p.reserved_buffers.find? (fun j => (p.getBuf j).match_id id) with
  | some j =>
    have hmatch0 := List.find?_some hf
    have hmatch : (p.getBuf j).match_id id = true := by simpa using hmatch0
    have hji : j ≠ i := by
      intro he
      subst he
      unfold tx_buffer_impl.match_id at hmatch
      simp at hmatch
      exact hid hmatch.2
    by_cases hok : ((p.getBuf j).reserve id (slot + p.expire_timeout_slots) cb).1
        = tx_buffer_status.successful
    · rw [reserve_id_match_success p slot id cb j hf hok]
      exact ⟨hi, getBuf_setBuf_ne p j i _ hji⟩
    · rw [reserve_id_match_fail p slot id cb j hf hok]
      exact ⟨hi, rfl⟩
  | none =>
    cases hav : p.available_buffers with
    | nil =>
      rw [reserve_id_no_match_empty p slot id cb hf hav]
      exact ⟨hi, rfl⟩
    | cons a rest =>
      have ha : a ∈ p.available_buffers := by
        rw [hav]; exact List.mem_cons_self a rest
      have hai : a ≠ i := by
        intro he
        refine (pool_inv_disjoint p hinv) ha ?_
        rw [he]; exact hi
      by_cases hok : ((p.getBuf a).reserve id (slot + p.expire_timeout_slots) cb).1
          = tx_buffer_status.successful
      · rw [reserve_id_fresh_success p slot id cb a rest hf hav hok]
        refine ⟨List.mem_append.mpr (Or.inl hi), ?_⟩
        unfold tx_buffer_pool_impl.getBuf
        exact getD_set_ne p.buffer_pool a i _ hai
      · rw [reserve_id_fresh_fail p slot id cb a rest hf hav hok]
        exact ⟨hi, rfl⟩

theorem reserve_transient_untouched (p : tx_buffer_pool_impl) (slot cb i : Nat)
    (hinv : pool_inv p) (hi : i ∈ p.reserved_buffers) :
    i ∈ (p.reserve_buffer_transient slot cb).2.reserved_buffers
    ∧ (p.reserve_buffer_transient slot cb).2.getBuf i = p.getBuf i := by
  cases hav : p.available_buffers with
  | nil =>
    rw [reserve_transient_empty p slot cb hav]
    exact ⟨hi, rfl⟩
  | cons a rest =>
    have ha : a ∈ p.available_buffers := by
      rw [hav]; exact List.mem_cons_self a rest
    have hai : a ≠ i := by
      intro he
      refine (pool_inv_disjoint p hinv) ha ?_
      rw [he]; exact hi
    by_cases hok : ((p.getBuf a).reserve {} (slot + 1) cb).1 = tx_buffer_status.successful
    · rw [reserve_transient_success p slot cb a rest hav hok]
      refine ⟨List.mem_append.mpr (Or.inl hi), ?_⟩
      unfold tx_buffer_pool_impl.getBuf
      exact getD_set_ne p.buffer_pool a i _ hai
    · rw [reserve_transient_fail p slot cb a rest hav hok]
      exact ⟨hi, rfl⟩

/-- C4: a buffer reserved with expiry slot `S + T` and never re-reserved stays
on the reserved queue, with its state untouched, across every maintenance
sweep whose slot is strictly below `S + T`, and the first sweep at a slot
greater than or equal to `S + T` moves it to the available queue with its
state set to free and its identifier cleared. -/
theorem C4_expiry_determinism (p : tx_buffer_pool_impl) (i S T s : Nat)
    (slots : List Nat) (hinv : pool_inv p) (hi : i ∈ p.reserved_buffers)
    (_hres : (p.getBuf i).reserved = true)
    (hexp : (p.getBuf i).expire_slot = S + T)
    (hslots : ∀ u ∈ slots, u < S + T) (hs : S + T ≤ s) :
    (i ∈ (slots.foldl tx_buffer_pool_impl.run_slot p).reserved_buffers
      ∧ (slots.foldl tx_buffer_pool_impl.run_slot p).getBuf i = p.getBuf i)
    ∧ (i ∈ ((slots.foldl tx_buffer_pool_impl.run_slot p).run_slot s).available_buffers
      ∧ i ∉ ((slots.foldl tx_buffer_pool_impl.run_slot p).run_slot s).reserved_buffers
      ∧ ((slots.foldl tx_buffer_pool_impl.run_slot p).run_slot s).getBuf i
          = { p.getBuf i with reserved := false, id := {} }) := by
  have hfold : ∀ (L : List Nat) (q : tx_buffer_pool_impl), pool_inv q →
      i ∈ q.reserved_buffers → q.getBuf i = p.getBuf i → (∀ u ∈ L, u < S + T) →
      pool_inv (L.foldl tx_buffer_pool_impl.run_slot q)
      ∧ i ∈ (L.foldl tx_buffer_pool_impl.run_slot q).reserved_buffers
      ∧ (L.foldl tx_buffer_pool_impl.run_slot q).getBuf i = p.getBuf i := by
    intro L
    induction L with
    | nil => intro q h1 h2 h3 _; exact ⟨h1, h2, h3⟩
    | cons u L ih =>
      intro q h1 h2 h3 h4
      have hu : u < S + T := h4 u (List.mem_cons_self u L)
      have hnod := pool_inv_nodup_reserved q h1
      have hexpq : ¬ (q.getBuf i).expire_slot ≤ u := by
        rw [h3, hexp]; omega
      have hk := run_slot_keeps_unexpired q u i hnod h2 hexpq
      exact ih (q.run_slot u) (pool_inv_run_slot q u h1) hk.1
        (by rw [hk.2, h3]) (fun v hv => h4 v (List.mem_cons_of_mem u hv))
  obtain ⟨hq1, hq2, hq3⟩ := hfold slots p hinv hi rfl hslots
  refine ⟨⟨hq2, hq3⟩, ?_⟩
  have hnod := pool_inv_nodup_reserved _ hq1
  have hexpq : ((slots.foldl tx_buffer_pool_impl.run_slot p).getBuf i).expire_slot ≤ s := by
    rw [hq3, hexp]; exact hs
  have hf := run_slot_frees_expired _ s i hnod hq2 hexpq
  refine ⟨hf.1, hf.2.1, ?_⟩
  rw [hf.2.2, hq3]

/-- Witness for C4 on a two-buffer pool: buffer 0 is reserved with expiry slot
7 (reservation slot 3, timeout 4); sweeps at slots 4 and 6 keep it reserved
and the sweep at slot 7 frees it and clears its identifier. -/
theorem C4_expiry_determinism_witness :
    let p : tx_buffer_pool_impl :=
      { buffer_pool :=
          [{ max_nof_codeblocks := 4, id := { rnti := 17, harq_ack_id := 2 },
             expire_slot := 7, reserved := true },
           { max_nof_codeblocks := 4 }],
        reserved_buffers := [0],
        available_buffers := [1],
        expire_timeout_slots := 4 }
    (0 ∈ ([4, 6].foldl tx_buffer_pool_impl.run_slot p).reserved_buffers
      ∧ ([4, 6].foldl tx_buffer_pool_impl.run_slot p).getBuf 0 = p.getBuf 0)
    ∧ (0 ∈ (([4, 6].foldl tx_buffer_pool_impl.run_slot p).run_slot 7).available_buffers
      ∧ 0 ∉ (([4, 6].foldl tx_buffer_pool_impl.run_slot p).run_slot 7).reserved_buffers
      ∧ (([4, 6].foldl tx_buffer_pool_impl.run_slot p).run_slot 7).getBuf 0
          = { p.getBuf 0 with reserved := false, id := {} }) :=
  C4_expiry_determinism _ 0 3 4 7 [4, 6] (by decide) (by decide) (by decide)
    (by decide) (by decide) (by decide)

/-- Renewal attempts and other reservations that may happen between a
transient reservation and the following maintenance sweep: further transient
reserve calls and identifier reserve calls under a non-null identifier.  Slot
sweeps are excluded because the claim speaks of the buffer state up to the
sweep at `S + 1`. -/
def intervening_ok : pool_op → Prop
  | pool_op.reserveId _ id _ => id ≠ {}
  | pool_op.reserveTransient _ _ => True
  | pool_op.runSlot _ => False

instance (op : pool_op) : Decidable (intervening_ok op) := by
  cases op with
  | reserveId s id cb => exact inferInstanceAs (Decidable (id ≠ {}))
  | reserveTransient s cb => exact inferInstanceAs (Decidable True)
  | runSlot s => exact inferInstanceAs (Decidable False)

/-- C5: a successful reservation through the identifier-less overload at slot
`S` binds the chosen buffer to the null identifier with expiry slot `S + 1`,
and after any sequence of further reserve calls (transient ones, or
identifier ones under a non-null identifier), the sweep at slot `S + 1` puts
the buffer back on the available queue in the free state. -/
theorem C5_transient_one_slot_expiry (p p1 : tx_buffer_pool_impl) (S cb i : Nat)
    (ops : List pool_op) (hinv : pool_inv p)
    (hres : p.reserve_buffer_transient S cb = (some i, p1))
    (hops : ∀ op ∈ ops, intervening_ok op) :
    (p1.getBuf i).id = ({} : tx_buffer_identifier)
    ∧ (p1.getBuf i).expire_slot = S + 1
    ∧ i ∈ ((apply_ops p1 ops).run_slot (S + 1)).available_buffers
    ∧ (((apply_ops p1 ops).run_slot (S + 1)).getBuf i).reserved = false := by
  cases hav : p.available_buffers with
  | nil =>
    rw [reserve_transient_empty p S cb hav] at hres
    exact absurd (congrArg Prod.fst hres) (by simp)
  | cons a rest =>
    by_cases hok : ((p.getBuf a).reserve {} (S + 1) cb).1 = tx_buffer_status.successful
    · rw [reserve_transient_success p S cb a rest hav hok] at hres
      have hai : a = i := by
        have := congrArg Prod.fst hres
        simpa using this
      subst hai
      have hp1 : p1
          = { buffer_pool := p.buffer_pool.set a ((p.getBuf a).reserve {} (S + 1) cb).2,
              reserved_buffers := p.reserved_buffers ++ [a],
              available_buffers := rest,
              expire_timeout_slots := p.expire_timeout_slots } :=
        (congrArg Prod.snd hres).symm
      have hcb : ¬ ((p.getBuf a).max_nof_codeblocks < cb) := by
        intro hlt
        unfold tx_buffer_impl.reserve at hok
        rw [if_pos hlt] at hok
        exact absurd hok (by simp)
      have hr2 : ((p.getBuf a).reserve {} (S + 1) cb).2
          = { p.getBuf a with id := {}, expire_slot := S + 1, reserved := true } := by
        unfold tx_buffer_impl.reserve
        rw [if_neg hcb]
      have halt : a < p.buffer_pool.length := by
        have ha : a ∈ p.available_buffers := by
          rw [hav]; exact List.mem_cons_self a rest
        have : a ∈ p.available_buffers ++ p.reserved_buffers := List.mem_append.mpr (Or.inl ha)
        have := hinv.mem_iff.mp this
        simpa using this
      have hbuf : p1.getBuf a
          = { p.getBuf a with id := {}, expire_slot := S + 1, reserved := true } := by
        rw [hp1]
        unfold tx_buffer_pool_impl.getBuf
        rw [getD_set_self p.buffer_pool a _ halt]
        exact hr2
      have hmem : a ∈ p1.reserved_buffers := by
        rw [hp1]
        exact List.mem_append.mpr (Or.inr (List.mem_cons_self a []))
      have hinv1 : pool_inv p1 := by
        have h0 := pool_inv_reserve_transient p S cb hinv
        rw [reserve_transient_success p S cb a rest hav hok] at h0
        rw [hp1]
        exact h0
      have hfold : ∀ (L : List pool_op) (q : tx_buffer_pool_impl), pool_inv q →
          a ∈ q.reserved_buffers →
          q.getBuf a = { p.getBuf a with id := {}, expire_slot := S + 1, reserved := true } →
          (∀ op ∈ L, intervening_ok op) →
          pool_inv (apply_ops q L)
          ∧ a ∈ (apply_ops q L).reserved_buffers
          ∧ (apply_ops q L).getBuf a
              = { p.getBuf a with id := {}, expire_slot := S + 1, reserved := true } := by
        intro L
        induction L with
        | nil => intro q h1 h2 h3 _; exact ⟨h1, h2, h3⟩
        | cons op L ih =>
          intro q h1 h2 h3 h4
          have hop : intervening_ok op := h4 op (List.mem_cons_self op L)
          have hnext : pool_inv (apply_op q op)
              ∧ a ∈ (apply_op q op).reserved_buffers
              ∧ (apply_op q op).getBuf a
                  = { p.getBuf a with id := {}, expire_slot := S + 1, reserved := true } := by
            cases op with
            | reserveId slot id ncb =>
              have hid : (q.getBuf a).id ≠ id := by
                rw [h3]
                intro he
                exact (hop : id ≠ ({} : tx_buffer_identifier)) he.symm
              have hu := reserve_id_untouched q slot id ncb a h1 h2 hid
              exact ⟨pool_inv_reserve_id q slot id ncb h1, hu.1, by rw [show apply_op q (pool_op.reserveId slot id ncb) = (q.reserve_buffer_id slot id ncb).2 from rfl, hu.2, h3]⟩
            | reserveTransient slot ncb =>
              have hu := reserve_transient_untouched q slot ncb a h1 h2
              exact ⟨pool_inv_reserve_transient q slot ncb h1, hu.1, by rw [show apply_op q (pool_op.reserveTransient slot ncb) = (q.reserve_buffer_transient slot ncb).2 from rfl, hu.2, h3]⟩
            | runSlot slot => exact absurd hop (by simp [intervening_ok])
          exact ih (apply_op q op) hnext.1 hnext.2.1 hnext.2.2
            (fun v hv => h4 v (List.mem_cons_of_mem op hv))
      obtain ⟨hq1, hq2, hq3⟩ := hfold ops p1 hinv1 hmem hbuf hops
      have hnod := pool_inv_nodup_reserved _ hq1
      have hexpq : ((apply_ops p1 ops).getBuf a).expire_slot ≤ S + 1 := by
        rw [hq3]
      have hfree := run_slot_frees_expired (apply_ops p1 ops) (S + 1) a hnod hq2 hexpq
      refine ⟨by rw [hbuf], by rw [hbuf], hfree.1, ?_⟩
      rw [hfree.2.2]
    · rw [reserve_transient_fail p S cb a rest hav hok] at hres
      exact absurd (congrArg Prod.fst hres) (by simp)

/-- Witness for C5 on a two-buffer pool: the transient reservation at slot 10
takes buffer 0 with expiry 11; an intervening transient reservation and an
identifier reservation do not renew it, and the sweep at slot 11 frees it. -/
theorem C5_transient_one_slot_expiry_witness :
    let p1 : tx_buffer_pool_impl :=
      { buffer_pool :=
          [{ max_nof_codeblocks := 4, id := {}, expire_slot := 11, reserved := true },
           { max_nof_codeblocks := 4 }],
        reserved_buffers := [0],
        available_buffers := [1],
        expire_timeout_slots := 4 }
    let ops := [pool_op.reserveTransient 10 2,
                pool_op.reserveId 10 { rnti := 5, harq_ack_id := 1 } 2]
    (p1.getBuf 0).id = ({} : tx_buffer_identifier)
    ∧ (p1.getBuf 0).expire_slot = 10 + 1
    ∧ 0 ∈ ((apply_ops p1 ops).run_slot (10 + 1)).available_buffers
    ∧ (((apply_ops p1 ops).run_slot (10 + 1)).getBuf 0).reserved = false :=
  C5_transient_one_slot_expiry
    { buffer_pool := [{ max_nof_codeblocks := 4 }, { max_nof_codeblocks := 4 }],
      reserved_buffers := [],
      available_buffers := [0, 1],
      expire_timeout_slots := 4 }
    { buffer_pool :=
        [{ max_nof_codeblocks := 4, id := {}, expire_slot := 11, reserved := true },
         { max_nof_codeblocks := 4 }],
      reserved_buffers := [0],
      available_buffers := [1],
      expire_timeout_slots := 4 }
    10 2 0
    [pool_op.reserveTransient 10 2,
     pool_op.reserveId 10 { rnti := 5, harq_ack_id := 1 } 2]
    (by decide) (by decide) (by decide)

/-! Lookup of a uniquely matching element. -/

theorem find?_eq_of_unique (l : List Nat) (f : Nat → Bool) (i : Nat)
    (hi : i ∈ l) (hf : f i = true) (huniq : ∀ j ∈ l, f j = true → j = i) :
    l.find? f = some i := by
  induction l with
  | nil => cases hi
  | cons a l ih =>
    by_cases ha : f a = true
    · have he : a = i := huniq a (List.mem_cons_self a l) ha
      rw [List.find?_cons_of_pos _ ha, he]
    · have hne : a ≠ i := by
        intro he
        rw [he] at ha
        exact ha hf
      have hi' : i ∈ l := by
        rcases List.mem_cons.mp hi with h | h
        · exact absurd h.symm hne
        · exact h
      rw [List.find?_cons_of_neg _ ha]
      exact ih hi' (fun j hj hfj => huniq j (List.mem_cons_of_mem a hj) hfj)

/-- C3: when exactly one reserved buffer is bound to the requested identifier
and the requested codeblock count fits its capacity, the identifier reserve
overload returns a valid handle to that very buffer index, with the buffer
expiry slot rebound to the reservation slot plus the configured timeout. -/
theorem C3_retransmission_reuse (p : tx_buffer_pool_impl) (slot : Nat)
    (id : tx_buffer_identifier) (cb i : Nat)
    (hi : i ∈ p.reserved_buffers)
    (hm : (p.getBuf i).match_id id = true)
    (huniq : ∀ j ∈ p.reserved_buffers, (p.getBuf j).match_id id = true → j = i)
    (hcap : cb ≤ (p.getBuf i).max_nof_codeblocks) :
    (p.reserve_buffer_id slot id cb).1 = some i
    ∧ ((p.reserve_buffer_id slot id cb).2.getBuf i).expire_slot
        = slot + p.expire_timeout_slots := by
  have hf : p.reserved_buffers.find? (fun j => (p.getBuf j).match_id id) = some i :=
    find?_eq_of_unique _ _ i hi hm huniq
  have hcb : ¬ ((p.getBuf i).max_nof_codeblocks < cb) := Nat.not_lt.mpr hcap
  have hok : ((p.getBuf i).reserve id (slot + p.expire_timeout_slots) cb).1
      = tx_buffer_status.successful := by
    unfold tx_buffer_impl.reserve
    rw [if_neg hcb]
  have hlt : i < p.buffer_pool.length := by
    by_contra hge
    have hd : p.getBuf i = default := getBuf_default_of_le p i (Nat.le_of_not_lt hge)
    rw [hd] at hm
    have hdm : (default : tx_buffer_impl).match_id id = false := rfl
    rw [hdm] at hm
    exact absurd hm (by simp)
  rw [reserve_id_match_success p slot id cb i hf hok]
  refine ⟨rfl, ?_⟩
  have hbuf := getBuf_setBuf_self p i
    ((p.getBuf i).reserve id (slot + p.expire_timeout_slots) cb).2 hlt
  rw [hbuf]
  unfold tx_buffer_impl.reserve
  rw [if_neg hcb]

/-- Witness for C3: buffer 0 is reserved under RNTI 7, HARQ process 1; a
reserve at slot 9 for the same identifier with 3 codeblocks returns a handle
to index 0, rebinding its expiry slot to 13. -/
theorem C3_retransmission_reuse_witness :
    let p : tx_buffer_pool_impl :=
      { buffer_pool :=
          [{ max_nof_codeblocks := 4, id := { rnti := 7, harq_ack_id := 1 },
             expire_slot := 6, reserved := true },
           { max_nof_codeblocks := 4 }],
        reserved_buffers := [0],
        available_buffers := [1],
        expire_timeout_slots := 4 }
    (p.reserve_buffer_id 9 { rnti := 7, harq_ack_id := 1 } 3).1 = some 0
    ∧ ((p.reserve_buffer_id 9 { rnti := 7, harq_ack_id := 1 } 3).2.getBuf 0).expire_slot
        = 9 + 4 :=
  C3_retransmission_reuse _ 9 { rnti := 7, harq_ack_id := 1 } 3 0
    (by decide) (by decide) (by decide) (by decide)

/-- C6: when the available queue is empty and no reserved buffer matches the
requested identifier, the identifier reserve overload returns the invalid
handle and leaves the pool state (both index queues and every buffer)
unchanged. -/
theorem C6_exhaustion_no_mutation (p : tx_buffer_pool_impl) (slot : Nat)
    (id : tx_buffer_identifier) (cb : Nat)
    (hav : p.available_buffers = [])
    (hno : ∀ j ∈ p.reserved_buffers, (p.getBuf j).match_id id = false) :
    (p.reserve_buffer_id slot id cb).1 = none
    ∧ (p.reserve_buffer_id slot id cb).2 = p := by
  have hf : p.reserved_buffers.find? (fun j => (p.getBuf j).match_id id) = none := by
    apply List.find?_eq_none.mpr
    intro j hj
    simp [hno j hj]
  rw [reserve_id_no_match_empty p slot id cb hf hav]
  exact ⟨rfl, rfl⟩

/-- Witness for C6: a fully reserved two-buffer pool rejects a reservation
under a fresh identifier without mutating anything. -/
theorem C6_exhaustion_no_mutation_witness :
    let p : tx_buffer_pool_impl :=
      { buffer_pool :=
          [{ max_nof_codeblocks := 4, id := { rnti := 1, harq_ack_id := 0 },
             expire_slot := 8, reserved := true },
           { max_nof_codeblocks := 4, id := { rnti := 2, harq_ack_id := 0 },
             expire_slot := 8, reserved := true }],
        reserved_buffers := [0, 1],
        available_buffers := [],
        expire_timeout_slots := 4 }
    (p.reserve_buffer_id 5 { rnti := 3, harq_ack_id := 0 } 1).1 = none
    ∧ (p.reserve_buffer_id 5 { rnti := 3, harq_ack_id := 0 } 1).2 = p :=
  C6_exhaustion_no_mutation _ 5 { rnti := 3, harq_ack_id := 0 } 1 (by decide) (by decide)

/-- C9: when the reserve call falls through to the free-queue path (no
reserved buffer matches) and the per-buffer reservation on the selected free
index fails for insufficient codeblock capacity, the call returns the invalid
handle and the pool is unchanged: the index stays on the available queue and
the reserved queue and all buffers keep their state.  The same holds for the
transient overload. -/
theorem C9_fresh_failure_no_move (p : tx_buffer_pool_impl) (slot : Nat)
    (id : tx_buffer_identifier) (cb i : Nat) (rest : List Nat)
    (hno : ∀ j ∈ p.reserved_buffers, (p.getBuf j).match_id id = false)
    (hav : p.available_buffers = i :: rest)
    (hfail : (p.getBuf i).max_nof_codeblocks < cb) :
    p.reserve_buffer_id slot id cb = (none, p)
    ∧ p.reserve_buffer_transient slot cb = (none, p) := by
  have hf : p.reserved_buffers.find? (fun j => (p.getBuf j).match_id id) = none := by
    apply List.find?_eq_none.mpr
    intro j hj
    simp [hno j hj]
  have hok1 : ((p.getBuf i).reserve id (slot + p.expire_timeout_slots) cb).1
      ≠ tx_buffer_status.successful := by
    unfold tx_buffer_impl.reserve
    rw [if_pos hfail]
    simp
  have hok2 : ((p.getBuf i).reserve {} (slot + 1) cb).1 ≠ tx_buffer_status.successful := by
    unfold tx_buffer_impl.reserve
    rw [if_pos hfail]
    simp
  exact ⟨reserve_id_fresh_fail p slot id cb i rest hf hav hok1,
    reserve_transient_fail p slot cb i rest hav hok2⟩

/-- Witness for C9: requesting five codeblocks on a pool whose free buffer 0
holds at most four fails on both overloads and leaves the pool unchanged. -/
theorem C9_fresh_failure_no_move_witness :
    let p : tx_buffer_pool_impl :=
      { buffer_pool := [{ max_nof_codeblocks := 4 }, { max_nof_codeblocks := 4 }],
        reserved_buffers := [],
        available_buffers := [0, 1],
        expire_timeout_slots := 4 }
    p.reserve_buffer_id 5 { rnti := 3, harq_ack_id := 0 } 5 = (none, p)
    ∧ p.reserve_buffer_transient 5 5 = (none, p) :=
  C9_fresh_failure_no_move _ 5 { rnti := 3, harq_ack_id := 0 } 5 0 [1]
    (by decide) (by decide) (by decide)

/-- C10: the transient overload never scans the reserved queue: whenever it
returns a valid handle the index comes from the available queue (never a
currently reserved index, even one reserved under the null identifier), and
when the available queue is empty it returns the invalid handle with the pool
unchanged. -/
theorem C10_transient_never_reuses_reserved (p : tx_buffer_pool_impl) (slot cb : Nat)
    (hinv : pool_inv p) :
    (∀ i, (p.reserve_buffer_transient slot cb).1 = some i →
      i ∈ p.available_buffers ∧ i ∉ p.reserved_buffers)
    ∧ (p.available_buffers = [] → p.reserve_buffer_transient slot cb = (none, p)) := by
  constructor
  · intro i hsome
    cases hav : p.available_buffers with
    | nil =>
      rw [reserve_transient_empty p slot cb hav] at hsome
      simp at hsome
    | cons a rest =>
      by_cases hok : ((p.getBuf a).reserve {} (slot + 1) cb).1 = tx_buffer_status.successful
      · rw [reserve_transient_success p slot cb a rest hav hok] at hsome
        have hai : a = i := by simpa using hsome
        subst hai
        have ha : a ∈ p.available_buffers := by
          rw [hav]; exact List.mem_cons_self a rest
        exact ⟨List.mem_cons_self a rest, fun hr => (pool_inv_disjoint p hinv) ha hr⟩
      · rw [reserve_transient_fail p slot cb a rest hav hok] at hsome
        simp at hsome
  · intro hav
    exact reserve_transient_empty p slot cb hav

/-- Witness for C10: with buffer 0 reserved under the null identifier, a
transient reservation returns the free index 1, not the reserved index 0. -/
theorem C10_transient_never_reuses_reserved_witness :
    let p : tx_buffer_pool_impl :=
      { buffer_pool :=
          [{ max_nof_codeblocks := 4, id := {}, expire_slot := 8, reserved := true },
           { max_nof_codeblocks := 4 }],
        reserved_buffers := [0],
        available_buffers := [1],
        expire_timeout_slots := 4 }
    1 ∈ p.available_buffers ∧ 1 ∉ p.reserved_buffers :=
  (C10_transient_never_reuses_reserved
    { buffer_pool :=
        [{ max_nof_codeblocks := 4, id := {}, expire_slot := 8, reserved := true },
         { max_nof_codeblocks := 4 }],
      reserved_buffers := [0],
      available_buffers := [1],
      expire_timeout_slots := 4 }
    7 2 (by decide)).1 1 (by decide)

/-! Formatter for `tx_buffer_identifier` (source lines 15-34). -/

/-- Semantics of the fmt replacement field `\x7b:#x\x7d` (alternate-form
lowercase hexadecimal) applied to an unsigned value: a `0x` prefix followed
by the hexadecimal digits. -/
def fmt_alt_hex (n : Nat) : String := "0x" ++ String.mk (Nat.toDigits 16 n)

/-- Semantics of the default fmt replacement field `\x7b\x7d` applied to an
unsigned value: the decimal digits. -/
def fmt_default_uint (n : Nat) : String := String.mk (Nat.toDigits 10 n)

/-- Rendering of `fmt::formatter<srsran::tx_buffer_identifier>::format`: the
format string is `rnti=\x7b:#x\x7d h_id=\x7b\x7d` applied to the fields
`value.rnti` and `value.harq_ack_id`. -/
def tx_buffer_identifier.format (v : tx_buffer_identifier) : String :=
  "rnti=" ++ fmt_alt_hex v.rnti ++ " h_id=" ++ fmt_default_uint v.harq_ack_id

/-- C8 counterexample: the identifier with endpoint (RNTI) 70 and HARQ
process 3 renders as `rnti=0x46 h_id=3`, not in the claimed form
`endpoint=<id> h_id=<n>`: the rendered text starts with `rnti=` and shows the
endpoint identifier in hexadecimal. -/
theorem C8_identifier_format_counterexample :
    tx_buffer_identifier.format { rnti := 70, harq_ack_id := 3 } = "rnti=0x46 h_id=3"
    ∧ tx_buffer_identifier.format { rnti := 70, harq_ack_id := 3 } ≠ "endpoint=70 h_id=3"
    ∧ tx_buffer_identifier.format { rnti := 70, harq_ack_id := 3 } ≠ "endpoint=0x46 h_id=3" := by
  refine ⟨rfl, ?_, ?_⟩ <;> decide

/-- C8 amended: every identifier renders in the fixed textual form
`rnti=0x<hex> h_id=<n>`, where `<hex>` is the transmission-endpoint
identifier (RNTI) in lowercase hexadecimal and `<n>` the HARQ process
identifier in decimal. -/
theorem C8_identifier_format_amended (v : tx_buffer_identifier) :
    tx_buffer_identifier.format v
      = "rnti=0x" ++ String.mk (Nat.toDigits 16 v.rnti)
        ++ " h_id=" ++ String.mk (Nat.toDigits 10 v.harq_ack_id) := rfl

/-! Ghost ledger of live handles, modelled from the spec (sections 3 and 5):
a handle to a buffer stays live until the buffer is re-reserved (the new
reservation supersedes it) or until the buffer expires, so a successful
reservation of index `i` sets the count of live handles of `i` to one and an
expiry of `i` clears it to zero. -/

/-- One pool operation together with its effect on the ledger of live handle
counts (one cell per buffer index). -/
def apply_op_ledger (s : tx_buffer_pool_impl × List Nat) (op : pool_op) :
    tx_buffer_pool_impl × List Nat :=
  match op with
  | pool_op.reserveId slot id cb =>
    let r := s.1.reserve_buffer_id slot id cb
    (r.2,
      match r.1 with
      | some i => s.2.set i 1
      | none => s.2)
  | pool_op.reserveTransient slot cb =>
    let r := s.1.reserve_buffer_transient slot cb
    (r.2,
      match r.1 with
      | some i => s.2.set i 1
      | none => s.2)
  | pool_op.runSlot slot =>
    (s.1.run_slot slot,
      (s.1.reserved_buffers.filter (fun j => ((s.1.getBuf j).run_slot slot).1)).foldl
        (fun l j => l.set j 0) s.2)

theorem mem_set_le_one (l : List Nat) (i v : Nat) (hv : v ≤ 1)
    (h : ∀ c ∈ l, c ≤ 1) : ∀ c ∈ l.set i v, c ≤ 1 := by
  intro c hc
  rcases List.mem_or_eq_of_mem_set hc with h1 | h2
  · exact h c h1
  · rw [h2]; exact hv

theorem foldl_set_zero_le_one (idxs : List Nat) : ∀ (l : List Nat),
    (∀ c ∈ l, c ≤ 1) → ∀ c ∈ idxs.foldl (fun acc j => acc.set j 0) l, c ≤ 1 := by
  induction idxs with
  | nil => intro l h; exact h
  | cons j idxs ih =>
    intro l h
    exact ih _ (mem_set_le_one l j 0 (by omega) h)

theorem apply_op_ledger_le_one (s : tx_buffer_pool_impl × List Nat) (op : pool_op)
    (h : ∀ c ∈ s.2, c ≤ 1) : ∀ c ∈ (apply_op_ledger s op).2, c ≤ 1 := by
  cases op with
  | reserveId slot id cb =>
    have he : (apply_op_ledger s (pool_op.reserveId slot id cb)).2
        = (match (s.1.reserve_buffer_id slot id cb).1 with
          | some i => s.2.set i 1
          | none => s.2) := rfl
    rw [he]
    cases (s.1.reserve_buffer_id slot id cb).1 with
    | some i => exact mem_set_le_one s.2 i 1 (by omega) h
    | none => exact h
  | reserveTransient slot cb =>
    have he : (apply_op_ledger s (pool_op.reserveTransient slot cb)).2
        = (match (s.1.reserve_buffer_transient slot cb).1 with
          | some i => s.2.set i 1
          | none => s.2) := rfl
    rw [he]
    cases (s.1.reserve_buffer_transient slot cb).1 with
    | some i => exact mem_set_le_one s.2 i 1 (by omega) h
    | none => exact h
  | runSlot slot =>
    have he : (apply_op_ledger s (pool_op.runSlot slot)).2
        = (s.1.reserved_buffers.filter (fun j => ((s.1.getBuf j).run_slot slot).1)).foldl
            (fun l j => l.set j 0) s.2 := rfl
    rw [he]
    exact foldl_set_zero_le_one _ s.2 h

/-- C7: under the spec handle lifecycle (a handle stays live until its buffer
is re-reserved or expires) no buffer index ever has two live handles: across
every operation sequence from a fresh pool each ledger cell stays at most
one.  Structurally, a reserve call can return an index only when it comes
from the available queue (where no handle can be live) or when it is the
reserved buffer matching the requested identifier (whose re-reservation
supersedes the previous handle). -/
theorem C7_at_most_one_live_handle (c : tx_buffer_pool_config) (ops : List pool_op) :
    (∀ cnt ∈ (ops.foldl apply_op_ledger
        (create_tx_buffer_pool c, List.replicate c.nof_buffers 0)).2, cnt ≤ 1)
    ∧ (∀ (p : tx_buffer_pool_impl) (slot : Nat) (id : tx_buffer_identifier) (cb i : Nat),
        pool_inv p → (p.reserve_buffer_id slot id cb).1 = some i →
        (i ∈ p.available_buffers ∧ i ∉ p.reserved_buffers)
          ∨ (i ∈ p.reserved_buffers ∧ (p.getBuf i).match_id id = true)) := by
  constructor
  · have hgen : ∀ (L : List pool_op) (s : tx_buffer_pool_impl × List Nat),
        (∀ c0 ∈ s.2, c0 ≤ 1) → ∀ cnt ∈ (L.foldl apply_op_ledger s).2, cnt ≤ 1 := by
      intro L
      induction L with
      | nil => intro s h; exact h
      | cons op L ih => intro s h; exact ih _ (apply_op_ledger_le_one s op h)
    refine hgen ops _ ?_
    intro c0 hc0
    rw [(List.mem_replicate.mp hc0).2]
    omega
  · intro p slot id cb i hinv hsome
    cases hf : p.reserved_buffers.find? (fun j => (p.getBuf j).match_id id) with
    | some j =>
      by_cases hok : ((p.getBuf j).reserve id (slot + p.expire_timeout_slots) cb).1
          = tx_buffer_status.successful
      · rw [reserve_id_match_success p slot id cb j hf hok] at hsome
        have hji : j = i := by simpa using hsome
        subst hji
        have hmatch0 := List.find?_some hf
        refine Or.inr ⟨List.mem_of_find?_eq_some hf, by simpa using hmatch0⟩
      · rw [reserve_id_match_fail p slot id cb j hf hok] at hsome
        simp at hsome
    | none =>
      cases hav : p.available_buffers with
      | nil =>
        rw [reserve_id_no_match_empty p slot id cb hf hav] at hsome
        simp at hsome
      | cons a rest =>
        by_cases hok : ((p.getBuf a).reserve id (slot + p.expire_timeout_slots) cb).1
            = tx_buffer_status.successful
        · rw [reserve_id_fresh_success p slot id cb a rest hf hav hok] at hsome
          have hai : a = i := by simpa using hsome
          subst hai
          have ha : a ∈ p.available_buffers := by
            rw [hav]; exact List.mem_cons_self a rest
          exact Or.inl ⟨List.mem_cons_self a rest,
            fun hr => (pool_inv_disjoint p hinv) ha hr⟩
        · rw [reserve_id_fresh_fail p slot id cb a rest hf hav hok] at hsome
          simp at hsome

/-- Witness for C7 on a one-buffer pool: after a reservation, a renewing
reservation of the same identifier and a sweep, the ledger cell of the single
buffer is at most one. -/
theorem C7_at_most_one_live_handle_witness :
    let c : tx_buffer_pool_config :=
      { nof_buffers := 1, max_nof_codeblocks := 4, expire_timeout_slots := 2 }
    let ops := [pool_op.reserveId 3 { rnti := 9, harq_ack_id := 0 } 2,
                pool_op.reserveId 4 { rnti := 9, harq_ack_id := 0 } 2,
                pool_op.runSlot 6]
    (1 : Nat) ∈ (ops.foldl apply_op_ledger
        (create_tx_buffer_pool c, List.replicate c.nof_buffers 0)).2 → (1 : Nat) ≤ 1 :=
  fun h =>
    (C7_at_most_one_live_handle
      { nof_buffers := 1, max_nof_codeblocks := 4, expire_timeout_slots := 2 }
      [pool_op.reserveId 3 { rnti := 9, harq_ack_id := 0 } 2,
       pool_op.reserveId 4 { rnti := 9, harq_ack_id := 0 } 2,
       pool_op.runSlot 6]).1 1 h
